import Mathlib

/-!
Verification development for the query-construction and change-tracking core
of the `nomatic-data` object-document mapping layer.

The TypeScript sources are shallowly embedded:
  * JavaScript runtime values become the inductive type `Val` (numbers are
    modelled as integers; floating point is out of scope for every property
    treated here).
  * The lodash path utilities `get` / `set` / `unset` used throughout the
    sources are embedded as pure functions over `Val` together with the
    lodash string-path tokenizer.
  * `Query` (src/Query.ts), the declarative parser `Query.parse`, the
    ArangoDB translator `queryToAQL` (src/adapters/ArangoDBAdapter.ts) and
    the change-tracking core of `Record` (src/Record.ts) become pure
    state-passing functions.  Fallible operations return `Except String` or
    `Option`.
-/

/-- Embedding of JavaScript runtime values.  `vUndefined` is JavaScript's
`undefined`, `vNull` is `null`.  Numbers are modelled as integers. -/
inductive Val where
  | vNull : Val
  | vUndefined : Val
  | vBool : Bool → Val
  | vNum : Int → Val
  | vStr : String → Val
  | vArr : List Val → Val
  | vObj : List (String × Val) → Val
deriving Repr

mutual
/-- Structural decidable equality for `Val` (the automatic deriving handler
does not support this nested inductive). -/
def Val.decEq : (a b : Val) → Decidable (a = b)
  | .vNull, .vNull => isTrue rfl
  | .vUndefined, .vUndefined => isTrue rfl
  | .vBool x, .vBool y =>
      match inferInstanceAs (Decidable (x = y)) with
      | isTrue h => isTrue (by rw [h])
      | isFalse h => isFalse (fun hh => h (Val.vBool.inj hh))
  | .vNum x, .vNum y =>
      match inferInstanceAs (Decidable (x = y)) with
      | isTrue h => isTrue (by rw [h])
      | isFalse h => isFalse (fun hh => h (Val.vNum.inj hh))
  | .vStr x, .vStr y =>
      match inferInstanceAs (Decidable (x = y)) with
      | isTrue h => isTrue (by rw [h])
      | isFalse h => isFalse (fun hh => h (Val.vStr.inj hh))
  | .vArr x, .vArr y =>
      match Val.decEqList x y with
      | isTrue h => isTrue (by rw [h])
      | isFalse h => isFalse (fun hh => h (Val.vArr.inj hh))
  | .vObj x, .vObj y =>
      match Val.decEqPairs x y with
      | isTrue h => isTrue (by rw [h])
      | isFalse h => isFalse (fun hh => h (Val.vObj.inj hh))
  | .vNull, .vUndefined | .vNull, .vBool _ | .vNull, .vNum _ | .vNull, .vStr _
  | .vNull, .vArr _ | .vNull, .vObj _
  | .vUndefined, .vNull | .vUndefined, .vBool _ | .vUndefined, .vNum _ | .vUndefined, .vStr _
  | .vUndefined, .vArr _ | .vUndefined, .vObj _
  | .vBool _, .vNull | .vBool _, .vUndefined | .vBool _, .vNum _ | .vBool _, .vStr _
  | .vBool _, .vArr _ | .vBool _, .vObj _
  | .vNum _, .vNull | .vNum _, .vUndefined | .vNum _, .vBool _ | .vNum _, .vStr _
  | .vNum _, .vArr _ | .vNum _, .vObj _
  | .vStr _, .vNull | .vStr _, .vUndefined | .vStr _, .vBool _ | .vStr _, .vNum _
  | .vStr _, .vArr _ | .vStr _, .vObj _
  | .vArr _, .vNull | .vArr _, .vUndefined | .vArr _, .vBool _ | .vArr _, .vNum _
  | .vArr _, .vStr _ | .vArr _, .vObj _
  | .vObj _, .vNull | .vObj _, .vUndefined | .vObj _, .vBool _ | .vObj _, .vNum _
  | .vObj _, .vStr _ | .vObj _, .vArr _ => isFalse (by intro hh; exact Val.noConfusion hh)

def Val.decEqList : (a b : List Val) → Decidable (a = b)
  | [], [] => isTrue rfl
  | [], _ :: _ => isFalse (by intro hh; exact List.noConfusion hh)
  | _ :: _, [] => isFalse (by intro hh; exact List.noConfusion hh)
  | x :: xs, y :: ys =>
      match Val.decEq x y with
      | isTrue h1 =>
          match Val.decEqList xs ys with
          | isTrue h2 => isTrue (by rw [h1, h2])
          | isFalse h2 => isFalse (fun hh => h2 (List.cons.inj hh).2)
      | isFalse h1 => isFalse (fun hh => h1 (List.cons.inj hh).1)

def Val.decEqPairs : (a b : List (String × Val)) → Decidable (a = b)
  | [], [] => isTrue rfl
  | [], _ :: _ => isFalse (by intro hh; exact List.noConfusion hh)
  | _ :: _, [] => isFalse (by intro hh; exact List.noConfusion hh)
  | (k, v) :: xs, (k', v') :: ys =>
      match inferInstanceAs (Decidable (k = k')) with
      | isTrue hk =>
          match Val.decEq v v' with
          | isTrue h1 =>
              match Val.decEqPairs xs ys with
              | isTrue h2 => isTrue (by rw [hk, h1, h2])
              | isFalse h2 => isFalse (fun hh => h2 (List.cons.inj hh).2)
          | isFalse h1 =>
              isFalse (fun hh => h1 (congrArg Prod.snd (List.cons.inj hh).1))
      | isFalse hk =>
          isFalse (fun hh => hk (congrArg Prod.fst (List.cons.inj hh).1))
end

instance : DecidableEq Val := Val.decEq

namespace Val

/-- JavaScript truthiness: `undefined`, `null`, `false`, `0` and `""` are
falsy; every object and array is truthy. -/
def truthy : Val → Bool
  | vNull => false
  | vUndefined => false
  | vBool b => b
  | vNum n => n != 0
  | vStr s => s != ""
  | vArr _ => true
  | vObj _ => true

/-- `typeof v === 'object'` — true for objects, arrays and `null`. -/
def typeofObject : Val → Bool
  | vNull => true
  | vArr _ => true
  | vObj _ => true
  | _ => false

/-- `typeof v === 'string'`. -/
def typeofString : Val → Bool
  | vStr _ => true
  | _ => false

/-- `v instanceof Object` — true for plain objects and arrays (not `null`). -/
def instanceofObject : Val → Bool
  | vArr _ => true
  | vObj _ => true
  | _ => false

/-- `v instanceof Array`. -/
def instanceofArray : Val → Bool
  | vArr _ => true
  | _ => false

end Val

/-- String coercion as performed by a JS template literal, for elements of an
array being joined: `null` and `undefined` render as the empty string. -/
def jsToStringArrElem (render : Val → String) : Val → String
  | .vNull => ""
  | .vUndefined => ""
  | v => render v

mutual
/-- String coercion as performed by a JS template literal `${v}`. -/
def jsToString : Val → String
  | .vNull => "null"
  | .vUndefined => "undefined"
  | .vBool b => if b then "true" else "false"
  | .vNum n => toString n
  | .vStr s => s
  | .vArr xs => String.intercalate "," (jsToStringList xs)
  | .vObj _ => "[object Object]"

/-- Element-wise coercion of an array (`Array.prototype.join`): `null` and
`undefined` elements render as the empty string. -/
def jsToStringList : List Val → List String
  | [] => []
  | .vNull :: xs => "" :: jsToStringList xs
  | .vUndefined :: xs => "" :: jsToStringList xs
  | x :: xs => jsToString x :: jsToStringList xs
end

/-- Keys iterated by a `for (const k in v)` loop: own enumerable keys of an
object in insertion order, index strings for arrays and strings, nothing for
primitives, `null` and `undefined`. -/
def jsForInKeys : Val → List String
  | .vObj fs => fs.map Prod.fst
  | .vArr xs => (List.range xs.length).map toString
  | .vStr s => (List.range s.length).map toString
  | _ => []

/-! The core `String` versions of `splitOn`, `startsWith`, `endsWith`,
`toNat?` and `take` are compiled in a way the kernel cannot evaluate, so the
same functions are spelled out over the character list. -/

def strSplitOnDotGo : List Char → String → List String
  | [], cur => [cur]
  | '.' :: rest, cur => cur :: strSplitOnDotGo rest ""
  | c :: rest, cur => strSplitOnDotGo rest (cur.push c)

/-- `path.split('.')`. -/
def strSplitOnDot (s : String) : List String := strSplitOnDotGo s.data ""

/-- `s.startsWith(p)`. -/
def strStartsWith (s p : String) : Bool := p.data.isPrefixOf s.data

/-- `s.endsWith(p)`. -/
def strEndsWith (s p : String) : Bool := p.data.isSuffixOf s.data

def strToNatGo : List Char → Nat → Option Nat
  | [], acc => some acc
  | c :: rest, acc =>
      if c.isDigit then strToNatGo rest (acc * 10 + (c.toNat - '0'.toNat))
      else none

/-- The numeric-string test and value an array index key goes through. -/
def strToNat? (s : String) : Option Nat :=
  match s.data with
  | [] => none
  | l => strToNatGo l 0

/-- `s.substr(0, n)`. -/
def strTake (s : String) (n : Nat) : String := String.mk (s.data.take n)

/-- Lookup in an object's own fields, `undefined` when absent
(`obj[k]`). -/
def objLookup (fs : List (String × Val)) (k : String) : Val :=
  match fs with
  | [] => .vUndefined
  | (k', v) :: rest => if k' = k then v else objLookup rest k

/-- `obj[k] = v`: updates the entry in place when the key already exists,
otherwise appends it (JS object insertion-order semantics). -/
def objAssign (fs : List (String × Val)) (k : String) (v : Val) :
    List (String × Val) :=
  match fs with
  | [] => [(k, v)]
  | (k', v') :: rest =>
      if k' = k then (k', v) :: rest else (k', v') :: objAssign rest k v

/-- `delete obj[k]`: removes the entry. -/
def objDelete (fs : List (String × Val)) (k : String) : List (String × Val) :=
  match fs with
  | [] => []
  | (k', v') :: rest =>
      if k' = k then rest else (k', v') :: objDelete rest k

/-- Resizes an array as an assignment to `length` does: truncates, or extends
with holes (read back as `undefined`). -/
def arrResize (xs : List Val) (n : Nat) : List Val :=
  if n ≤ xs.length then xs.take n
  else xs ++ List.replicate (n - xs.length) Val.vUndefined

/-- `arr[i] = v` with hole extension when `i` is past the end. -/
def arrAssign (xs : List Val) (i : Nat) (v : Val) : List Val :=
  if i < xs.length then xs.set i v
  else arrResize xs i ++ [v]

/-- Single-step property read `v[k]` as performed inside lodash `baseGet`:
assoc lookup for objects; index, `length` for arrays and strings; `undefined`
for anything else (lodash guards each step against `null`/`undefined`). -/
def getKey : Val → String → Val
  | .vObj fs, k => objLookup fs k
  | .vArr xs, k =>
      if k = "length" then .vNum xs.length
      else match strToNat? k with
        | some i => xs.getD i .vUndefined
        | none => .vUndefined
  | .vStr s, k =>
      if k = "length" then .vNum s.length
      else match strToNat? k with
        | some i =>
            match s.data.get? i with
            | some c => .vStr (String.mk [c])
            | none => .vUndefined
        | none => .vUndefined
  | _, _ => .vUndefined

/-- Single-step property write `v[k] = x`.  For an array, writing `length`
resizes (a non-numeric length assignment throws in JS and is unreachable in
every property treated here), a numeric key writes that index, and named
properties on arrays are outside the model (no property treated here writes
one). -/
def setKey : Val → String → Val → Val
  | .vObj fs, k, x => .vObj (objAssign fs k x)
  | .vArr xs, k, x =>
      if k = "length" then
        match x with
        | .vNum n => .vArr (arrResize xs n.toNat)
        | _ => .vArr xs
      else
        match strToNat? k with
        | some i => .vArr (arrAssign xs i x)
        | none => .vArr xs
  | v, _, _ => v

/-- Single-step `delete v[k]`: removes an object entry; on an array leaves a
hole (length unchanged); a no-op elsewhere. -/
def delKey : Val → String → Val
  | .vObj fs, k => .vObj (objDelete fs k)
  | .vArr xs, k =>
      (match strToNat? k with
        | some i => .vArr (if i < xs.length then xs.set i .vUndefined else xs)
        | none => .vArr xs)
  | v, _ => v

/-- lodash string-path tokenizer (`_.toPath`) for the path shapes this code
base produces: dot-separated segments, numeric `[i]` segments, and
single-quoted `['...']` segments (a `[` directly after a `.` does not occur
in any path the sources build). -/
def stringToPathGo : Nat → List Char → String → List String → List String
  | _, [], cur, out => out ++ [cur]
  | 0, _, cur, out => out ++ [cur]
  | fuel + 1, '.' :: rest, cur, out => stringToPathGo fuel rest "" (out ++ [cur])
  | fuel + 1, '[' :: rest, cur, out =>
      let out := if cur = "" then out else out ++ [cur]
      let seg := rest.takeWhile (fun c => c ≠ ']')
      let rest' := (rest.dropWhile (fun c => c ≠ ']')).drop 1
      let segStr : String :=
        match seg with
        | '\'' :: mid =>
            if mid.getLast? = some '\'' then String.mk mid.dropLast
            else String.mk seg
        | '"' :: mid =>
            if mid.getLast? = some '"' then String.mk mid.dropLast
            else String.mk seg
        | _ => String.mk seg
      let out := out ++ [segStr]
      match rest' with
      | [] => out
      | '.' :: r2 => stringToPathGo fuel r2 "" out
      | r2 => stringToPathGo fuel r2 "" out
  | fuel + 1, c :: rest, cur, out => stringToPathGo fuel rest (cur.push c) out

/-- `_.toPath` on a path string.  Every step of the scanner consumes at least
one character, so `s.length` steps always complete the scan. -/
def stringToPath (s : String) : List String :=
  stringToPathGo s.length s.data "" []

/-- lodash `_.get(v, path)` over an already tokenized path. -/
def lodashGet (v : Val) (path : List String) : Val :=
  path.foldl getKey v

/-- lodash `_.set(v, path, x)`: walks the path, creating a fresh array when
the next segment is numeric and a fresh object otherwise, exactly as
`baseSet` does. -/
def lodashSet (v : Val) (path : List String) (x : Val) : Val :=
  match path with
  | [] => v
  | [k] => setKey v k x
  | k :: rest =>
      let child := getKey v k
      let child :=
        match child with
        | .vObj _ => child
        | .vArr _ => child
        | _ =>
            match rest with
            | next :: _ =>
                if (strToNat? next).isSome then Val.vArr [] else Val.vObj []
            | [] => Val.vObj []
      setKey v k (lodashSet child rest x)

/-- lodash `_.unset(v, path)`: deletes the addressed property; a silent no-op
when a parent on the path is missing.  (The boolean `_.unset` returns is
`true` in every situation the sources reach: `delete` on a plain object or a
missing parent both report success.) -/
def lodashUnset (v : Val) (path : List String) : Val :=
  match path with
  | [] => v
  | [k] => delKey v k
  | k :: rest =>
      match getKey v k with
      | .vObj fs => setKey v k (lodashUnset (.vObj fs) rest)
      | .vArr xs => setKey v k (lodashUnset (.vArr xs) rest)
      | _ => v

/-! ## Query (src/Query.ts) -/

/-- A predicate group exactly as `Query.add` pushes it:
`{ [key]: { [operator]: value } }`. -/
structure QPred where
  key : String
  op : String
  value : Val
deriving Repr, DecidableEq

/-- The canonical `Query#data` object.  `whereB` is the `$where` object: an
insertion-ordered mapping from logical-operator key (`$and` / `$or`) to its
array of predicate groups.  A `none` group is the JS `undefined` that
`or()` pushes when it pops an empty `$and` array. -/
structure QueryData where
  limit : Val
  skip : Val
  sort : Option (List (String × Int))
  fields : Option (List Val)
  whereB : List (String × List (Option QPred))
deriving Repr, DecidableEq

namespace Query

def COMPARISON_OPERATORS : List String :=
  ["$eq", "$gt", "$gte", "$in", "$lt", "$lte", "$ne", "$nin"]

def ELEMENT_OPERATORS : List String := ["$exists"]

def LOGIC_OPERATORS : List String := ["$and", "$or"]

/-- The fresh `data` object the constructor builds:
`{ $limit: 0, $skip: 0, $where: {} }`. -/
def empty : QueryData := ⟨.vNum 0, .vNum 0, none, none, []⟩

/-- `this.data.$where[lop]` — `none` when the branch key does not exist. -/
def branchLookup (w : List (String × List (Option QPred))) (k : String) :
    Option (List (Option QPred)) :=
  match w with
  | [] => none
  | (k', l) :: rest => if k' = k then some l else branchLookup rest k

/-- `this.data.$where[lop] = l` — updates the branch in place, or appends a
new branch key (JS object insertion order). -/
def branchSet (w : List (String × List (Option QPred))) (k : String)
    (l : List (Option QPred)) : List (String × List (Option QPred)) :=
  match w with
  | [] => [(k, l)]
  | (k', l') :: rest =>
      if k' = k then (k', l) :: rest else (k', l') :: branchSet rest k l

/-- Creates `this.data.$where[logicalOperator]` on demand and pushes a
group onto it (the shared tail of `Query#add`). -/
def pushBranch (q : QueryData) (lopKey : String) (g : Option QPred) :
    QueryData :=
  { q with
    whereB := branchSet q.whereB lopKey
      ((branchLookup q.whereB lopKey).getD [] ++ [g]) }

/-- `Query#add(key, operator, value, logicalOperator)` (src/Query.ts
lines 127-149): validates the operator, defaults a falsy logical operator to
`$and`, validates a given one, creates the branch array on demand and pushes
`{key: {operator: value}}`.  Returns the query for chaining. -/
def add (q : QueryData) (key op : String) (v : Val) (lop : Option String) :
    Except String QueryData :=
  if ¬ (COMPARISON_OPERATORS.contains op ∨ ELEMENT_OPERATORS.contains op) then
    .error ("Invalid operator: " ++ op)
  else
    match lop with
    | none => .ok (pushBranch q "$and" (some ⟨key, op, v⟩))
    | some s =>
        if s = "" then .ok (pushBranch q "$and" (some ⟨key, op, v⟩))
        else if LOGIC_OPERATORS.contains s then
          .ok (pushBranch q s (some ⟨key, op, v⟩))
        else .error ("Invalid logical operator: " ++ s)

/-- The field context a `WhereQuery` instance carries: the field path and the
logical operator it was constructed with (`null` from `where()`, `$or` from
`or()`). -/
structure WhereCtx where
  key : String
  lop : Option String
deriving Repr, DecidableEq

/-- `Query#where(key)` (src/Query.ts lines 226-228): returns a new
`WhereQuery(this, key, null)`; the query data itself is untouched. -/
def whereM (key : String) : WhereCtx := ⟨key, none⟩

/-- `Query#and(key)` delegates to `where`. -/
def andM (key : String) : WhereCtx := whereM key

/-- `Query#or(key)` (src/Query.ts lines 178-189): requires the `$and` branch
key to exist (note: an empty `$and` array is truthy in JS and passes the
check), ensures `$or` exists, pops the last `$and` element onto `$or`
(popping an empty array pushes JS `undefined`, modelled as `none`) and
returns a `WhereQuery` scoped to `$or`. -/
def orM (q : QueryData) (key : String) :
    Except String (QueryData × WhereCtx) :=
  match branchLookup q.whereB "$and" with
  | none => .error "Cannot use `or()` without using `where()` first"
  | some l =>
      let popped : Option QPred :=
        match l.getLast? with
        | some e => e
        | none => none
      let w1 := branchSet q.whereB "$and" l.dropLast
      let w2 := branchSet w1 "$or" ((branchLookup w1 "$or").getD [] ++ [popped])
      .ok ({ q with whereB := w2 }, ⟨key, some "$or"⟩)

/-- Modelled from the spec: the `WhereQuery` revision that pairs with the
current `Query.ts` is not among the sources — the included revision
(src/WhereQuery.ts, older) targets the previous
`where(key, operator, value, logicalOperator)` dispatch API, while the
current `Query.ts` moved the validated append into the separate `add`
method.  Per spec §4.1, calling a comparison/element method on a field
context appends `{fieldPath: {operator: value}}` to the context's logical
branch and returns the QueryModel for chaining; the append and its
validation are the present `Query.add`, invoked with the context's key and
logical operator. -/
def ctxApply (q : QueryData) (c : WhereCtx) (opName : String) (v : Val) :
    Except String QueryData :=
  add q c.key opName v c.lop

/-- The nine fluent methods of the field context. -/
inductive FluentOp where
  | opEq | opNe | opGt | opGte | opLt | opLte | opIn | opNin | opExists
deriving Repr, DecidableEq

def FluentOp.name : FluentOp → String
  | .opEq => "$eq"
  | .opNe => "$ne"
  | .opGt => "$gt"
  | .opGte => "$gte"
  | .opLt => "$lt"
  | .opLte => "$lte"
  | .opIn => "$in"
  | .opNin => "$nin"
  | .opExists => "$exists"

/-- A fluent method call `ctx.eq(v)`, `ctx.exists(v)`, ... on a field
context (see `ctxApply`). -/
def fluent (q : QueryData) (c : WhereCtx) (op : FluentOp) (v : Val) :
    Except String QueryData :=
  ctxApply q c op.name v

/-- `order > 0` on a JS value.  Only numeric and boolean directions are
modelled (no property treated here sorts with any other direction type). -/
def jsGreaterZero : Val → Bool
  | .vNum n => 0 < n
  | .vBool b => b
  | _ => false

/-- `value.length` as read by a `for (let i = 0; i < value.length; i++)`
loop: array/string length, otherwise the comparison with `undefined` is
false and the loop runs zero times. -/
def jsLengthNat : Val → Nat
  | .vArr xs => xs.length
  | .vStr s => s.length
  | _ => 0

/-- `Query#sort(key, order = 1)` (src/Query.ts lines 200-220): throws on a
literal 0 order, creates `$sort` on demand, pushes `[key, ±1]` for a string
key, and recurses over `[key, order]` pairs otherwise.  The JS default
parameter turns an `undefined` order into 1. -/
def sortM (fuel : Nat) (q : QueryData) (key order : Val) :
    Except String QueryData :=
  match fuel with
  | 0 => .error "fuel exhausted"
  | fuel + 1 =>
      let order := if order = .vUndefined then .vNum 1 else order
      if order = .vNum 0 then .error ("Invalid sorting order: " ++ jsToString order)
      else
        let sortL := q.sort.getD []
        let q := { q with sort := some sortL }
        match key with
        | .vStr s =>
            let ord : Int := if jsGreaterZero order then 1 else -1
            .ok { q with sort := some (sortL ++ [(s, ord)]) }
        | _ =>
            (jsForInKeys key).foldlM
              (fun acc i =>
                let entry := getKey key i
                sortM fuel acc (getKey entry "0") (getKey entry "1"))
              q

/-- `Query#fields(...fields)` (src/Query.ts lines 155-171): creates
`$fields` on demand, flattens nested arrays, and pushes each name not
already present (`indexOf` equality modelled structurally; the names are
path strings in practice). -/
def fieldsM (fuel : Nat) (q : QueryData) (args : List Val) : QueryData :=
  match fuel with
  | 0 => q
  | fuel + 1 =>
      let start := { q with fields := some (q.fields.getD []) }
      args.foldl
        (fun acc a =>
          match a with
          | .vArr xs => fieldsM fuel acc xs
          | _ =>
              let fl := acc.fields.getD []
              if fl.contains a then acc
              else { acc with fields := some (fl ++ [a]) })
        start

/-- `this['and'](key)` / `this['or'](key)` as the parser invokes them
(src/Query.ts lines 101 and 107, via `logicOperator.substr(1)`): the parser
only ever passes `$and` or `$or` here, `$or` routing through `or()` (which
can throw) and `$and` through `where()`. -/
def branchCtx (q : QueryData) (lop : String) (key : String) :
    Except String (QueryData × WhereCtx) :=
  if lop = "$or" then orM q key
  else .ok (q, whereM key)

/-- `Query#parse(data, path, logicOperator, key)` (src/Query.ts
lines 47-125) for a non-empty `path`, written as a depth-first work list of
pending `parse` invocations `(path, logicOperator, key)` so that the fuel
recursion stays structural: processing a job either emits a predicate and
moves on, or prepends the sub-invocations its loop would issue.  Each job
reads the value at `$where.<path>` with a bracketed fallback path for field
names that contain dots, then dispatches on the last path segment: plain
field (descend into objects, implicit `$eq` on scalars), comparison/element
operator (emit a predicate through the branch context), logical operator
(descend into the group array, switching branches), otherwise a parse
error. -/
def parseAll : Nat → Val → List (String × String × Option String) →
    QueryData → Except String QueryData
  | _, _, [], q => .ok q
  | 0, _, _ :: _, _ => .error "fuel exhausted"
  | fuel + 1, input, (path, lop, key?) :: rest, q =>
      let parts := strSplitOnDot path
      let key := key?.getD (String.intercalate "." parts)
      let value := lodashGet input (stringToPath ("$where." ++ path))
      let lastP := parts.getLastD ""
      let value :=
        if value = .vUndefined then
          let (altParts1, altOperation) :=
            if strStartsWith lastP "$" then
              (parts.dropLast, "." ++ parts.getLastD "undefined")
            else (parts, "")
          let (altParts2, altPrefix) :=
            if strStartsWith (parts.headD "") "$" then
              (altParts1.drop 1, "." ++ altParts1.headD "undefined")
            else (altParts1, "")
          let altPath :=
            altPrefix ++ "['" ++ String.intercalate "." altParts2 ++ "']" ++
              altOperation
          lodashGet input (stringToPath ("$where" ++ altPath))
        else value
      if ¬ strStartsWith lastP "$" then
        if value.typeofObject then
          parseAll fuel input
            (((jsForInKeys value).map
              (fun i => (path ++ "." ++ i, lop, some (key ++ "." ++ i)))) ++
              rest) q
        else
          match branchCtx q lop key with
          | .error e => .error e
          | .ok (q', c) =>
              match ctxApply q' c "$eq" value with
              | .error e => .error e
              | .ok q2 => parseAll fuel input rest q2
      else if COMPARISON_OPERATORS.contains lastP ∨
          ELEMENT_OPERATORS.contains lastP then
        let operator := lastP
        let key2 := strTake key (key.length - operator.length - 1)
        match branchCtx q lop key2 with
        | .error e => .error e
        | .ok (q', c) =>
            match ctxApply q' c operator value with
            | .error e => .error e
            | .ok q2 => parseAll fuel input rest q2
      else if LOGIC_OPERATORS.contains lastP then
        let lop' := lastP
        let parts' := parts.dropLast
        let jobs :=
          (List.range (jsLengthNat value)).flatMap
            (fun i =>
              (jsForInKeys (getKey value (toString i))).map
                (fun j =>
                  let key2 :=
                    if parts' = [] then j
                    else String.intercalate "." parts' ++ "." ++ j
                  (path ++ "[" ++ toString i ++ "]." ++ j, lop', some key2)))
        parseAll fuel input (jobs ++ rest) q
      else .error ("Cannot parse " ++ jsToString value ++ " in " ++ path)

/-- `a || b`. -/
def jsOr (a b : Val) : Val := if a.truthy then a else b

/-- The entry case of `Query#parse` (no `path`, src/Query.ts lines 48-67),
as run by the constructor on a supplied filter object: assigns
`$limit`/`$skip` (`|| 0`), feeds `$sort` to `sort()` and `$fields` to
`fields(...)` when truthy, then walks the keys of `$where`.  A truthy
non-iterable `$fields` would make the JS spread throw a `TypeError`. -/
def parseTop (fuel : Nat) (input : Val) : Except String QueryData :=
  let q := { empty with
    limit := jsOr (getKey input "$limit") (.vNum 0),
    skip := jsOr (getKey input "$skip") (.vNum 0) }
  match
    (if (getKey input "$sort").truthy then
      sortM fuel q (getKey input "$sort") .vUndefined
    else .ok q) with
  | .error e => .error e
  | .ok q =>
      let fieldsStep : Except String QueryData :=
        if (getKey input "$fields").truthy then
          match getKey input "$fields" with
          | .vArr xs => .ok (fieldsM fuel q xs)
          | .vStr s =>
              .ok (fieldsM fuel q (s.data.map (fun c => Val.vStr (String.mk [c]))))
          | _ => .error "TypeError: $fields is not iterable"
        else .ok q
      match fieldsStep with
      | .error e => .error e
      | .ok q =>
          let w := getKey input "$where"
          if w.truthy then
            parseAll fuel input
              ((jsForInKeys w).map (fun k => (k, "$and", none))) q
          else .ok q

/-- `new Query(runHandler, data)` with a filter object: fresh canonical data
run through `parse`. -/
def ofObject (fuel : Nat) (input : Val) : Except String QueryData :=
  parseTop fuel input

end Query

/-! ## ArangoDB translator (src/adapters/ArangoDBAdapter.ts, `queryToAQL`) -/

namespace AQL

/-- The `lookup` table of `queryToAQL` (lines 301-312) on logical-operator
keys.  A key off the table reads as JS `undefined`, which a template literal
renders as `"undefined"`; the Query API only ever creates `$and`/`$or`
branches. -/
def logicWord : String → String
  | "$and" => "AND"
  | "$or" => "OR"
  | _ => "undefined"

/-- The `lookup` table on comparison operators (same remark for unknown
keys; `$exists` never reaches this table). -/
def compareWord : String → String
  | "$eq" => "=="
  | "$gt" => ">"
  | "$gte" => ">="
  | "$in" => "IN"
  | "$lt" => "<"
  | "$lte" => "<="
  | "$ne" => "!="
  | "$nin" => "NOT IN"
  | _ => "undefined"

/-- Filter-clause field remap (lines 328-334): logical `id` renders as the
storage key field `_key`, `rev` as `_rev`, anything else unchanged. -/
def filterKey (k : String) : String :=
  if k = "id" then "_key" else if k = "rev" then "_rev" else k

/-- Sort-clause field remap (the `switch` at lines 374-384). -/
def sortKey (k : String) : String :=
  if k = "id" then "_key" else if k = "rev" then "_rev" else k

/-- Rendering of one `{key: {operator: value}}` predicate (the bodies of the
key and operator loops, lines 327-357): `doc.<remapped key> <op>` and, for a
non-`$exists` operator, the value — quoted when it is a string.  `$exists`
renders ` != null` / ` == null` by the truthiness of its value (the template
leaves a doubled space before `!=`/`==`). -/
def renderPred (k op : String) (v : Val) : String :=
  let aKey := filterKey k
  let opS :=
    if op = "$exists" then (if v.truthy then " != null" else " == null")
    else compareWord op
  let s := "doc." ++ aKey ++ " " ++ opS
  if op ≠ "$exists" then
    s ++ (if v.typeofString then " \"" ++ jsToString v ++ "\""
          else " " ++ jsToString v)
  else s

/-- One group of a branch array.  A `none` group is the JS `undefined` that
`or()` can push; `for (const key in undefined)` runs zero times, so such a
group contributes nothing beyond its separator. -/
def renderGroup : Option QPred → String
  | none => ""
  | some p => renderPred p.key p.op p.value

/-- The indexed group loop (lines 320-326): the first group of a branch is
preceded by ` FILTER `, later ones by the branch's logical keyword. -/
def renderGroupsAux (word : String) : Nat → List (Option QPred) → String
  | _, [] => ""
  | i, g :: rest =>
      (if i = 0 then " FILTER " else " " ++ word ++ " ") ++ renderGroup g ++
        renderGroupsAux word (i + 1) rest

/-- The `for (const logicOperator in data.$where)` loop: branches in
insertion order, each with its index starting at 0 (so a second branch emits
` FILTER ` again — as the source does). -/
def renderWhere : List (String × List (Option QPred)) → String
  | [] => ""
  | (lop, gs) :: rest => renderGroupsAux (logicWord lop) 0 gs ++ renderWhere rest

/-- The sort loop (lines 363-388). -/
def renderSortsAux : Nat → List (String × Int) → String
  | _, [] => ""
  | i, (f, d) :: rest =>
      (if i = 0 then " SORT " else ", ") ++ "doc." ++ sortKey f ++
        (if d < 0 then " DESC" else "") ++ renderSortsAux (i + 1) rest

def sortClause (q : QueryData) : String :=
  match q.sort with
  | none => ""
  | some l => renderSortsAux 0 l

/-- The paging clause (lines 390-396): omitted entirely when `$limit` is the
number 0; `$skip` joins in only when truthy. -/
def limitClause (q : QueryData) : String :=
  if q.limit ≠ .vNum 0 then
    if q.skip.truthy then
      " LIMIT " ++ jsToString q.skip ++ ", " ++ jsToString q.limit
    else " LIMIT " ++ jsToString q.limit
  else ""

/-- The nested projection object the `$fields` loop builds with lodash `set`
(lines 398-409), remapping `id`/`rev` and keying `doc.<field>` strings. -/
def buildFieldsObj (fs : List Val) : Val :=
  fs.foldl
    (fun acc f =>
      let aKey : String :=
        match f with
        | .vStr "id" => "_key"
        | .vStr "rev" => "_rev"
        | .vStr s => s
        | other => jsToString other
      lodashSet acc (stringToPath aKey) (.vStr ("doc." ++ aKey)))
    (.vObj [])

mutual
/-- `util.inspect` of the projection object, as far as the shapes built by
`buildFieldsObj` exercise it: nested plain objects with identifier keys and
single-quoted strings. -/
def inspectVal : Val → String
  | .vStr s => "'" ++ s ++ "'"
  | .vObj [] => "\x7b\x7d"
  | .vObj fs => "\x7b " ++ String.intercalate ", " (inspectFields fs) ++ " \x7d"
  | v => jsToString v

def inspectFields : List (String × Val) → List String
  | [] => []
  | (k, v) :: rest => (k ++ ": " ++ inspectVal v) :: inspectFields rest
end

/-- `.split(`'`).join('')` — removes every apostrophe. -/
def stripQuotes (s : String) : String :=
  String.mk (s.data.filter (fun c => c ≠ '\''))

/-- The `RETURN` clause (lines 398-413): a nonempty `$fields` array selects
the projection object (inspected with quotes stripped), anything else
returns the whole document. -/
def returnClause (q : QueryData) : String :=
  match q.fields with
  | some fs =>
      if fs.length > 0 then
        " RETURN " ++ stripQuotes (inspectVal (buildFieldsObj fs))
      else " RETURN doc"
  | none => " RETURN doc"

/-- `ArangoDBAdapter#queryToAQL(collection, query)` (lines 300-420) for a
non-null query: base scan clause, filter clause over the `$where` branches
in insertion order, sort clause, paging clause, projection/return clause.
(`$where` is always an object — truthy even when empty — and an empty
branch list renders nothing, exactly as the source's loop does.) -/
def queryToAQL (collection : String) (q : QueryData) : String :=
  "FOR doc IN " ++ collection ++ renderWhere q.whereB ++ sortClause q ++
    limitClause q ++ returnClause q

/-- `queryToAQL` including the falsy-query branch (line 306 / 415). -/
def queryToAQLOpt (collection : String) : Option QueryData → String
  | some q => queryToAQL collection q
  | none => "FOR doc IN " ++ collection ++ " RETURN doc"

end AQL

/-! ## Record change tracking (src/Record.ts) -/

/-- `RecordOperation`. -/
inductive RecOp where
  | add | replace | remove
deriving Repr, DecidableEq

/-- A `RecordChange` entry (`newVal` is the source's `new` field). -/
structure RecordChange where
  operation : RecOp
  key : String
  old : Val
  newVal : Val
deriving Repr, DecidableEq

/-- The mutable state of a `Record`: `_data` and `_changes`.  The change
log is kept most-recent-first (the reverse of the JS array): the source's
`push` prepends here and its `pop` takes the head. -/
structure RecordState where
  data : Val
  changes : List RecordChange
deriving Repr, DecidableEq

namespace Record

/-- `Record#get(key)` for a string key (src/Record.ts lines 272-277).  A
virtual property's value comes from an externally supplied getter — out of
scope here: every claim below concerns virtual-free records or non-virtual
keys, for which this branch is never taken.  Otherwise the read is a lodash
path lookup on `_data`. -/
def getM (virtuals : List String) (st : RecordState) (key : String) : Val :=
  if virtuals.contains key then .vUndefined
  else lodashGet st.data (stringToPath key)

/-- `Record#get` with an array key (line 273): `key.toString()` joins the
segments with commas (`Array.prototype.toString`); the joined string is then
looked up as a single lodash path. -/
def getArrKey (virtuals : List String) (st : RecordState)
    (key : List String) : Val :=
  getM virtuals st (String.intercalate "," key)

/-- The shallow copy `Object.assign({}, old)` takes of a value: an array
becomes a plain object keyed by index strings; a plain object is, as a pure
value, itself. -/
def assignCopy : Val → Val
  | .vArr xs => .vObj (((List.range xs.length).map toString).zip xs)
  | v => v

/-- The copy `Record#set` takes of values (`slice()` for arrays,
`Object.assign({}, ·)` for other objects): as a pure value, the identity;
kept to mirror the source's lines 319-333. -/
def setCopy : Val → Val
  | .vArr xs => .vArr xs
  | .vObj fs => .vObj fs
  | v => v

/-- `Record#set(key, value)` (src/Record.ts lines 285-345) for a string key.
A virtual key routes through an externally supplied setter — out of scope
(`none`); all claims below concern non-virtual keys.  The array-`length`
guard (line 302-306) reads the parent via `this.get(parentKey)` with
`parentKey` an *array*, whose `toString()` comma-joins the segments.  The
operation is classified by the truthiness (`!!`) of the current value, the
new and old values are shallow-copied, the write is a lodash path `set`, and
one change entry is pushed. -/
def setM (virtuals : List String) (st : RecordState) (key : String)
    (value : Val) : Option RecordState :=
  if virtuals.contains key then none
  else
    let parentKey := (strSplitOnDot key).dropLast
    let parent := getArrKey virtuals st parentKey
    if parent.instanceofArray ∧ strEndsWith key "length" then some st
    else
      let operation : RecOp :=
        if (getM virtuals st key).truthy then .replace else .add
      let old := getM virtuals st key
      let newV := setCopy value
      let old := if operation = .replace ∧ old.instanceofObject then setCopy old else old
      some { data := lodashSet st.data (stringToPath key) value,
             changes := ⟨operation, key, old, newV⟩ :: st.changes }

/-- `Record#unset(key)` (src/Record.ts lines 355-379).  The virtual guard
reads `get(this._virtuals, key)` — a lodash *property* access on a `Map`,
which never sees the map's entries, so it never fires (and every claim below
involves no virtuals at all).  An absent value returns `false` with no
entry; otherwise a `remove` entry is logged whose `old` is the
`Object.assign({}, old)` copy (an array is therefore recorded as an
index-keyed plain object), the leaf is deleted, and the call returns
`true` (lodash `unset` reports success in every situation reached here). -/
def unsetM (virtuals : List String) (st : RecordState) (key : String) :
    RecordState × Bool :=
  let old := getM virtuals st key
  if old = .vUndefined then (st, false)
  else
    let old := if old.instanceofObject then assignCopy old else old
    ({ data := lodashUnset st.data (stringToPath key),
       changes := ⟨.remove, key, old, .vUndefined⟩ :: st.changes }, true)

/-- `Array.prototype.slice(s, e)` with JS clamping of negative indices. -/
def jsSlice {α : Type} (l : List α) (s e : Int) : List α :=
  let n : Int := l.length
  let s' := if s < 0 then max (n + s) 0 else min s n
  let e' := if e < 0 then max (n + e) 0 else min e n
  (l.drop s'.toNat).take (e'.toNat - s'.toNat)

/-- `Record#changes(count = null)` (lines 111-116): the last `count` entries
in chronological order, full log when `count` is `null`. -/
def changesM (st : RecordState) (count : Option Int) : List RecordChange :=
  let chron := st.changes.reverse
  let c := count.getD chron.length
  let start : Int := (chron.length : Int) - c
  jsSlice chron start (start + c)

/-- `Record#revert(count = this._changes.length)` (lines 414-428): pops and
undoes `count` entries — `old` is restored for `remove`/`replace`, the key
deleted for `add`.  Popping an exhausted log reads `.operation` of
`undefined` and throws a `TypeError`; the embedding returns `none` there. -/
def revertM : RecordState → Nat → Option RecordState
  | st, 0 => some st
  | st, n + 1 =>
      match st.changes with
      | [] => none
      | c :: rest =>
          let d :=
            match c.operation with
            | .remove => lodashSet st.data (stringToPath c.key) c.old
            | .replace => lodashSet st.data (stringToPath c.key) c.old
            | .add => lodashUnset st.data (stringToPath c.key)
          revertM ⟨d, rest⟩ n

/-- `Record#commit(data)` (lines 230-263) for a virtual-free record: an
object result (`typeof data === 'object'`, which includes `null`) replaces
`_data` wholesale; `true` leaves it; any other primitive is assigned to the
instance's own `rev` property (not `_data`; unmodelled).  The change log is
cleared in every case. -/
def commitM (st : RecordState) (result : Val) : RecordState :=
  { data := if result.typeofObject then result else st.data, changes := [] }

/-- `Record#save()` (lines 387-396): with no bound save function, nothing
happens; otherwise the collaborator's settled outcome is awaited — the core
performs no mutation before that await — and its result is committed on
success, while a rejection is rethrown unchanged.  The collaborator is
modelled as an outcome value (it receives the record but the atomicity
claim concerns the core's own state handling). -/
def saveM (st : RecordState) (handler : Option (Except String Val)) :
    RecordState × Option String :=
  match handler with
  | none => (st, none)
  | some (.error e) => (st, some e)
  | some (.ok r) => (commitM st r, none)

/-- `Record#validate()` (lines 398-406): awaits the bound validate
collaborator and rethrows any rejection; the record's state is not touched
on any path. -/
def validateM (st : RecordState) (handler : Option (Except String Unit)) :
    RecordState × Option String :=
  match handler with
  | none => (st, none)
  | some (.error e) => (st, some e)
  | some (.ok _) => (st, none)

/-- Member names found on a `Record` instance itself (own `_`-fields and
prototype methods) — what the proxy traps' `get(self, key)` can see
(record *data* lives under `_data` and is not among them; `EventEmitter`
contributes further names, none colliding with any key used below). -/
def memberNames : List String :=
  ["_changes", "_data", "_save", "_validate", "_virtuals", "changes",
   "virtuals", "proxy", "init", "commit", "get", "set", "unset", "save",
   "validate", "revert", "serialize", "toJSON", "constructor"]

/-- The proxy `set` trap for a top-level write `record[key] = value`
(src/Record.ts lines 172-190).  `get(self, key)` looks the key up on the
*instance* (`self`), not in `_data`: it is truthy only for instance members,
and only that branch contains the `value === null → unset` special case
(writing to the instance itself is outside the data model, `none`).  For
every data key — present in `_data` or not — the trap falls through to
`self.set(key, value)`, null or not. -/
def proxySet (virtuals : List String) (st : RecordState) (key : String)
    (value : Val) : Option RecordState :=
  if memberNames.contains key then none
  else setM virtuals st key value

/-- The proxy `get` trap reading a top-level data key (lines 163-171): when
nothing is found on the instance itself, the read is `self.get(key)` (the
nested-proxy wrapping of object values does not change the value read). -/
def proxyGet (virtuals : List String) (st : RecordState) (key : String) :
    Val :=
  if memberNames.contains key then .vUndefined
  else getM virtuals st key

end Record

/-! ## Claim inputs and auxiliary definitions -/

/-- `{"$where": {"status": {"$eq": "active"}}}`. -/
def c1InputExplicit : Val :=
  .vObj [("$where", .vObj [("status", .vObj [("$eq", .vStr "active")])])]

/-- `{"$where": {"status": "active"}}` (implicit `$eq` shorthand). -/
def c1InputShorthand : Val :=
  .vObj [("$where", .vObj [("status", .vStr "active")])]

/-- The canonical data of the model whose only predicate is
`where('status').eq('active')`. -/
def statusActiveData : QueryData :=
  ⟨.vNum 0, .vNum 0, none, none,
   [("$and", [some ⟨"status", "$eq", .vStr "active"⟩])]⟩

/-- The query state after `add('a', '$eq', 1)` on a fresh query. -/
def c6q1 : QueryData :=
  ⟨.vNum 0, .vNum 0, none, none, [("$and", [some ⟨"a", "$eq", .vNum 1⟩])]⟩

/-- The state `or('b')` leaves `c6q1` in: the lone `$and` predicate moved to
`$or`, the `$and` array left empty (but present). -/
def c6q2 : QueryData :=
  ⟨.vNum 0, .vNum 0, none, none,
   [("$and", []), ("$or", [some ⟨"a", "$eq", .vNum 1⟩])]⟩

/-- The factored value/`null`-suffix part of a rendered predicate — what
follows `doc.<remapped key>` (see `AQL.renderPred`). -/
def AQL.predTail (op : String) (v : Val) : String :=
  let opS :=
    if op = "$exists" then (if v.truthy then " != null" else " == null")
    else AQL.compareWord op
  let s := " " ++ opS
  if op ≠ "$exists" then
    s ++ (if v.typeofString then " \"" ++ jsToString v ++ "\""
          else " " ++ jsToString v)
  else s

/-- Decidable equality for `Except`, so closed evaluation claims can be
settled by `decide`. -/
instance {e a : Type} [DecidableEq e] [DecidableEq a] :
    DecidableEq (Except e a) := fun x y =>
  match x, y with
  | .ok x', .ok y' =>
      match inferInstanceAs (Decidable (x' = y')) with
      | isTrue h => isTrue (by rw [h])
      | isFalse h => isFalse (fun hh => h (Except.ok.inj hh))
  | .error x', .error y' =>
      match inferInstanceAs (Decidable (x' = y')) with
      | isTrue h => isTrue (by rw [h])
      | isFalse h => isFalse (fun hh => h (Except.error.inj hh))
  | .ok _, .error _ => isFalse (by intro hh; exact Except.noConfusion hh)
  | .error _, .ok _ => isFalse (by intro hh; exact Except.noConfusion hh)

/-- A `set`/`unset` mutation applied to a record through its path API. -/
inductive Mut where
  | mset (key : String) (value : Val)
  | munset (key : String)
deriving Repr, DecidableEq

/-- One mutation on a virtual-free record. -/
def applyMut (st : RecordState) : Mut → Option RecordState
  | .mset k v => Record.setM [] st k v
  | .munset k => some (Record.unsetM [] st k).1

/-- A sequence of mutations on a virtual-free record. -/
def applySeq (st : RecordState) : List Mut → Option RecordState
  | [] => some st
  | m :: rest =>
      match applyMut st m with
      | none => none
      | some st' => applySeq st' rest

/-- The data transition one simple-key mutation performs. -/
def mutStep (d : Val) : Mut → Val
  | .mset k v => setKey d k v
  | .munset k => delKey d k

/-- Side conditions under which one mutation is exactly undone by `revert`
(see the C3 counterexample for what fails without them): the key is a single
plain path segment, a `set` does not end in `length` and does not overwrite
a present-but-falsy value (the truthiness classification would log `add` and
revert would delete the key), and an `unset` hits a present non-array value
(the `Object.assign` copy coerces an array old-value to a plain object). -/
def okMut (d : Val) : Mut → Bool
  | .mset k _ =>
      (stringToPath k == [k]) && (strSplitOnDot k == [k]) &&
        (!(strEndsWith k "length")) &&
        ((getKey d k == .vUndefined) || (getKey d k).truthy)
  | .munset k =>
      (stringToPath k == [k]) && (strSplitOnDot k == [k]) &&
        (getKey d k != .vUndefined) && (!(getKey d k).instanceofArray)

/-- `okMut` holding along a whole mutation sequence. -/
def okSeq (d : Val) : List Mut → Bool
  | [] => true
  | m :: rest => okMut d m && okSeq (mutStep d m) rest

/-- Key-wise (JS deep-equal style) equality of two objects' fields:
insertion order is not observable through reads. -/
def objExtEq (a b : List (String × Val)) : Prop :=
  ∀ k, objLookup a k = objLookup b k

/-! ## Helper lemmas -/

theorem branchLookup_branchSet_self (w : List (String × List (Option QPred)))
    (k : String) (l : List (Option QPred)) :
    Query.branchLookup (Query.branchSet w k l) k = some l := by
  induction w with
  | nil => simp [Query.branchSet, Query.branchLookup]
  | cons h t ih =>
      obtain ⟨k', l'⟩ := h
      by_cases hk : k' = k <;>
        simp [Query.branchSet, Query.branchLookup, hk, ih]

theorem branchLookup_branchSet_other (w : List (String × List (Option QPred)))
    (k b : String) (l : List (Option QPred)) (hb : b ≠ k) :
    Query.branchLookup (Query.branchSet w k l) b = Query.branchLookup w b := by
  induction w with
  | nil => simp [Query.branchSet, Query.branchLookup, Ne.symm hb]
  | cons h t ih =>
      obtain ⟨k', l'⟩ := h
      by_cases hk : k' = k
      · subst hk
        simp [Query.branchSet, Query.branchLookup, Ne.symm hb]
      · by_cases hb' : k' = b
        · subst hb'
          simp [Query.branchSet, Query.branchLookup, hk, Ne.symm hb]
        · simp [Query.branchSet, Query.branchLookup, hk, hb', ih]

theorem objLookup_assign_self (fs : List (String × Val)) (k : String) (v : Val) :
    objLookup (objAssign fs k v) k = v := by
  induction fs with
  | nil => simp [objAssign, objLookup]
  | cons h t ih =>
      obtain ⟨k', v'⟩ := h
      by_cases hk : k' = k <;> simp [objAssign, objLookup, hk, ih]

theorem objLookup_assign_other (fs : List (String × Val)) (k b : String)
    (v : Val) (hb : b ≠ k) :
    objLookup (objAssign fs k v) b = objLookup fs b := by
  induction fs with
  | nil => simp [objAssign, objLookup, Ne.symm hb]
  | cons h t ih =>
      obtain ⟨k', v'⟩ := h
      by_cases hk : k' = k
      · subst hk
        simp [objAssign, objLookup, Ne.symm hb]
      · by_cases hb' : k' = b
        · subst hb'
          simp [objAssign, objLookup, hk]
        · simp [objAssign, objLookup, hk, hb', ih]

theorem objLookup_delete_other (fs : List (String × Val)) (k b : String)
    (hb : b ≠ k) :
    objLookup (objDelete fs k) b = objLookup fs b := by
  induction fs with
  | nil => simp [objDelete, objLookup]
  | cons h t ih =>
      obtain ⟨k', v'⟩ := h
      by_cases hk : k' = k
      · subst hk
        simp [objDelete, objLookup, Ne.symm hb, ih]
      · by_cases hb' : k' = b
        · subst hb'
          simp [objDelete, objLookup, hk]
        · simp [objDelete, objLookup, hk, hb', ih]

theorem objLookup_not_mem (fs : List (String × Val)) (k : String)
    (h : k ∉ fs.map Prod.fst) : objLookup fs k = .vUndefined := by
  induction fs with
  | nil => rfl
  | cons hd t ih =>
      obtain ⟨k', v'⟩ := hd
      simp only [List.map_cons, List.mem_cons, not_or] at h
      have hne : ¬ (k' = k) := fun hh => h.1 hh.symm
      simp [objLookup, hne, ih h.2]

theorem objLookup_delete_self (fs : List (String × Val)) (k : String)
    (hnd : (fs.map Prod.fst).Nodup) :
    objLookup (objDelete fs k) k = .vUndefined := by
  induction fs with
  | nil => rfl
  | cons hd t ih =>
      obtain ⟨k', v'⟩ := hd
      simp only [List.map_cons, List.nodup_cons] at hnd
      by_cases hk : k' = k
      · subst hk
        simp only [objDelete, if_pos rfl]
        exact objLookup_not_mem t k' hnd.1
      · simp [objDelete, objLookup, hk, ih hnd.2]

theorem mem_keys_objAssign (fs : List (String × Val)) (k x : String) (v : Val) :
    x ∈ (objAssign fs k v).map Prod.fst ↔ x ∈ fs.map Prod.fst ∨ x = k := by
  induction fs with
  | nil => simp [objAssign]
  | cons hd t ih =>
      obtain ⟨k', v'⟩ := hd
      by_cases hk : k' = k
      · subst hk
        simp only [objAssign, if_true]
        simp only [List.map_cons, List.mem_cons]
        tauto
      · simp only [objAssign, if_neg hk, List.map_cons, List.mem_cons, ih]
        tauto

theorem nodup_keys_objAssign (fs : List (String × Val)) (k : String) (v : Val)
    (hnd : (fs.map Prod.fst).Nodup) :
    ((objAssign fs k v).map Prod.fst).Nodup := by
  induction fs with
  | nil => simp [objAssign]
  | cons hd t ih =>
      obtain ⟨k', v'⟩ := hd
      simp only [List.map_cons, List.nodup_cons] at hnd
      by_cases hk : k' = k
      · subst hk
        simp only [objAssign, if_true]
        simp only [List.map_cons, List.nodup_cons]
        exact ⟨hnd.1, hnd.2⟩
      · simp only [objAssign, if_neg hk, List.map_cons, List.nodup_cons]
        refine ⟨?_, ih hnd.2⟩
        intro hmem
        rcases (mem_keys_objAssign t k k' v).mp hmem with h | h
        · exact hnd.1 h
        · exact hk h

theorem mem_keys_objDelete (fs : List (String × Val)) (k x : String)
    (h : x ∈ (objDelete fs k).map Prod.fst) : x ∈ fs.map Prod.fst := by
  induction fs with
  | nil => simp only [objDelete] at h; exact h
  | cons hd t ih =>
      obtain ⟨k', v'⟩ := hd
      by_cases hk : k' = k
      · subst hk
        simp only [objDelete, if_true] at h
        simp only [List.map_cons, List.mem_cons]
        exact Or.inr h
      · simp only [objDelete, if_neg hk, List.map_cons, List.mem_cons] at h ⊢
        rcases h with h | h
        · exact Or.inl h
        · exact Or.inr (ih h)

theorem nodup_keys_objDelete (fs : List (String × Val)) (k : String)
    (hnd : (fs.map Prod.fst).Nodup) :
    ((objDelete fs k).map Prod.fst).Nodup := by
  induction fs with
  | nil => simp [objDelete]
  | cons hd t ih =>
      obtain ⟨k', v'⟩ := hd
      simp only [List.map_cons, List.nodup_cons] at hnd
      by_cases hk : k' = k
      · subst hk
        simpa [objDelete] using hnd.2
      · simp only [objDelete, if_neg hk, List.map_cons, List.nodup_cons]
        exact ⟨fun hmem => hnd.1 (mem_keys_objDelete t k k' hmem), ih hnd.2⟩

theorem renderGroupsAux_append (w : String) (i : Nat)
    (l1 l2 : List (Option QPred)) :
    AQL.renderGroupsAux w i (l1 ++ l2) =
      AQL.renderGroupsAux w i l1 ++ AQL.renderGroupsAux w (i + l1.length) l2 := by
  induction l1 generalizing i with
  | nil => simp [AQL.renderGroupsAux]
  | cons g t ih =>
      simp only [List.cons_append, AQL.renderGroupsAux, ih (i + 1),
        List.length_cons]
      have harith : i + (t.length + 1) = i + 1 + t.length := by omega
      rw [harith]
      simp only [List.append_eq]
      rw [ih (i + 1)]
      simp [String.append_assoc]

theorem renderWhere_append (b1 b2 : List (String × List (Option QPred))) :
    AQL.renderWhere (b1 ++ b2) = AQL.renderWhere b1 ++ AQL.renderWhere b2 := by
  induction b1 with
  | nil => simp [AQL.renderWhere]
  | cons hd t ih =>
      obtain ⟨lop, gs⟩ := hd
      simp [AQL.renderWhere, ih, String.append_assoc]

theorem renderSortsAux_append (i : Nat) (l1 l2 : List (String × Int)) :
    AQL.renderSortsAux i (l1 ++ l2) =
      AQL.renderSortsAux i l1 ++ AQL.renderSortsAux (i + l1.length) l2 := by
  induction l1 generalizing i with
  | nil => simp [AQL.renderSortsAux]
  | cons hd t ih =>
      obtain ⟨f, d⟩ := hd
      simp only [List.cons_append, AQL.renderSortsAux, ih (i + 1),
        List.length_cons]
      have harith : i + (t.length + 1) = i + 1 + t.length := by omega
      rw [harith]
      simp only [List.append_eq]
      rw [ih (i + 1)]
      simp [String.append_assoc]

/-! ## Claim theorems -/

/-- C1: Builder/parser canonical equivalence — a Query parsed from
`{"$where": {"status": {"$eq": "active"}}}`, one parsed from
`{"$where": {"status": "active"}}` (implicit `$eq` shorthand), and one built
by `where('status').eq('active')` have identical canonical data:
`$limit` 0, `$skip` 0, and `$where.$and = [{status: {$eq: "active"}}]`. -/
theorem c1_builder_parser_equivalence :
    Query.ofObject 20 c1InputExplicit = .ok statusActiveData ∧
    Query.ofObject 20 c1InputShorthand = .ok statusActiveData ∧
    Query.fluent Query.empty (Query.whereM "status") .opEq (.vStr "active") =
      .ok statusActiveData ∧
    statusActiveData.limit = .vNum 0 ∧
    statusActiveData.skip = .vNum 0 ∧
    statusActiveData.whereB =
      [("$and", [some ⟨"status", "$eq", .vStr "active"⟩])] := by
  refine ⟨by decide, by decide, by decide, rfl, rfl, rfl⟩

/-- C2: Fluent predicate append — for every field path, every supported
operator among the nine fluent methods and every value, calling the method
on the context `where(k)` returns appends exactly one predicate
`{k: {op: v}}` to the `$and` branch (created on demand), leaves `$limit`,
`$skip`, `$sort`, `$fields` and every other branch unchanged, and returns
the QueryModel (the updated query value) for chaining. -/
theorem c2_fluent_predicate_append (q : QueryData) (k : String) (v : Val)
    (op : Query.FluentOp) :
    Query.fluent q (Query.whereM k) op v =
      .ok (Query.pushBranch q "$and" (some ⟨k, op.name, v⟩)) ∧
    (Query.pushBranch q "$and" (some ⟨k, op.name, v⟩)).limit = q.limit ∧
    (Query.pushBranch q "$and" (some ⟨k, op.name, v⟩)).skip = q.skip ∧
    (Query.pushBranch q "$and" (some ⟨k, op.name, v⟩)).sort = q.sort ∧
    (Query.pushBranch q "$and" (some ⟨k, op.name, v⟩)).fields = q.fields ∧
    Query.branchLookup
        (Query.pushBranch q "$and" (some ⟨k, op.name, v⟩)).whereB "$and" =
      some ((Query.branchLookup q.whereB "$and").getD [] ++
        [some ⟨k, op.name, v⟩]) ∧
    ∀ b, b ≠ "$and" →
      Query.branchLookup
          (Query.pushBranch q "$and" (some ⟨k, op.name, v⟩)).whereB b =
        Query.branchLookup q.whereB b := by
  refine ⟨?_, rfl, rfl, rfl, rfl, ?_, ?_⟩
  · cases op <;> rfl
  · exact branchLookup_branchSet_self _ _ _
  · intro b hb
    exact branchLookup_branchSet_other _ _ _ _ hb

/-- C2 witness: the appended `$gt` predicate on a fresh query creates only
the `$and` branch — `$or` stays absent. -/
theorem c2_fluent_predicate_append_witness :
    Query.branchLookup
        (Query.pushBranch Query.empty "$and"
          (some ⟨"x", Query.FluentOp.opGt.name, .vNum 3⟩)).whereB "$or" =
      Query.branchLookup Query.empty.whereB "$or" :=
  (c2_fluent_predicate_append Query.empty "x" (.vNum 3) .opGt).2.2.2.2.2.2
    "$or" (by decide)

/-- C4: Translator determinism and example output — `queryToAQL` is a pure
function of the collection name and the canonical data (equal arguments give
byte-identical strings), and the model whose only predicate is
`where('status').eq('active')` renders against collection `collection`
exactly as `FOR doc IN collection FILTER doc.status == "active" RETURN
doc`. -/
theorem c4_translator_determinism_and_example :
    (∀ (c1 c2 : String) (q1 q2 : QueryData), c1 = c2 → q1 = q2 →
      AQL.queryToAQL c1 q1 = AQL.queryToAQL c2 q2) ∧
    Query.fluent Query.empty (Query.whereM "status") .opEq (.vStr "active") =
      .ok statusActiveData ∧
    AQL.queryToAQL "collection" statusActiveData =
      "FOR doc IN collection FILTER doc.status == \"active\" RETURN doc" := by
  refine ⟨?_, rfl, rfl⟩
  intro c1 c2 q1 q2 h1 h2
  rw [h1, h2]

/-- C4 witness: two translations of the same concrete arguments coincide. -/
theorem c4_translator_witness :
    AQL.queryToAQL "collection" statusActiveData =
      AQL.queryToAQL "collection" statusActiveData :=
  c4_translator_determinism_and_example.1 "collection" "collection"
    statusActiveData statusActiveData rfl rfl

/-- C6 (amended): `or(fieldPath)` fails with the preceding-`where` error
exactly when the `$and` branch key is absent; whenever the branch exists —
even as an empty array, which is truthy in JS — it pops the last `$and`
element (JS `undefined`, i.e. `none`, when the array is empty) onto the end
of `$or` and returns a field context scoped to `$or`, leaving paging, sort
and fields untouched. -/
theorem c6_or_amended (q : QueryData) (k : String) :
    (Query.branchLookup q.whereB "$and" = none →
      Query.orM q k =
        .error "Cannot use `or()` without using `where()` first") ∧
    ∀ l, Query.branchLookup q.whereB "$and" = some l →
      ∃ q', Query.orM q k = .ok (q', ⟨k, some "$or"⟩) ∧
        Query.branchLookup q'.whereB "$and" = some l.dropLast ∧
        Query.branchLookup q'.whereB "$or" =
          some ((Query.branchLookup q.whereB "$or").getD [] ++
            [l.getLast?.join]) ∧
        q'.limit = q.limit ∧ q'.skip = q.skip ∧ q'.sort = q.sort ∧
        q'.fields = q.fields := by
  constructor
  · intro h
    simp [Query.orM, h]
  · intro l h
    have hjoin :
        (match l.getLast? with
          | some e => e
          | none => (none : Option QPred)) = l.getLast?.join := by
      cases l.getLast? <;> rfl
    refine ⟨{ q with
        whereB := Query.branchSet
          (Query.branchSet q.whereB "$and" l.dropLast) "$or"
          ((Query.branchLookup
              (Query.branchSet q.whereB "$and" l.dropLast) "$or").getD [] ++
            [l.getLast?.join]) }, ?_, ?_, ?_, rfl, rfl, rfl, rfl⟩
    · simp [Query.orM, h, hjoin]
    · rw [branchLookup_branchSet_other _ _ _ _ (by decide : "$and" ≠ "$or")]
      exact branchLookup_branchSet_self _ _ _
    · rw [branchLookup_branchSet_self]
      rw [branchLookup_branchSet_other _ _ _ _ (by decide : "$or" ≠ "$and")]

/-- C6 witness: on a query holding one `$and` predicate, `or('b')` moves it
to `$or`, leaves the (empty) `$and` branch present and returns the
`$or`-scoped context. -/
theorem c6_or_witness :
    ∃ q', Query.orM c6q1 "b" = .ok (q', ⟨"b", some "$or"⟩) ∧
      Query.branchLookup q'.whereB "$and" =
        some ([some ⟨"a", "$eq", .vNum 1⟩] : List (Option QPred)).dropLast ∧
      Query.branchLookup q'.whereB "$or" =
        some ((Query.branchLookup c6q1.whereB "$or").getD [] ++
          [([some ⟨"a", "$eq", .vNum 1⟩] :
              List (Option QPred)).getLast?.join]) ∧
      q'.limit = c6q1.limit ∧ q'.skip = c6q1.skip ∧ q'.sort = c6q1.sort ∧
      q'.fields = c6q1.fields :=
  (c6_or_amended c6q1 "b").2 [some ⟨"a", "$eq", .vNum 1⟩] rfl

/-- C6 counterexample: after `add('a','$eq',1)` and `or('b')`, the `$and`
branch holds zero predicates, yet `or('c')` does not throw — it succeeds and
pushes a JS `undefined` entry onto `$or` — refuting "fails ... exactly when
no `and` predicate exists yet". -/
theorem c6_or_counterexample :
    Query.add Query.empty "a" "$eq" (.vNum 1) none = .ok c6q1 ∧
    Query.orM c6q1 "b" = .ok (c6q2, ⟨"b", some "$or"⟩) ∧
    Query.branchLookup c6q2.whereB "$and" = some [] ∧
    Query.orM c6q2 "c" =
      .ok (⟨.vNum 0, .vNum 0, none, none,
            [("$and", []), ("$or", [some ⟨"a", "$eq", .vNum 1⟩, none])]⟩,
           ⟨"c", some "$or"⟩) := by
  refine ⟨by decide, by decide, rfl, by decide⟩

/-- C7: Error atomicity — whenever `save()` or `validate()` rejects (the
bound collaborator's outcome is an error), the record's data and change log
are exactly what they were before the call: no commit happens and no entry
is added or removed, so retrying is safe. -/
theorem c7_error_atomicity :
    (∀ (st st' : RecordState) (h : Option (Except String Val)) (e : String),
      Record.saveM st h = (st', some e) →
        st'.data = st.data ∧ st'.changes = st.changes) ∧
    (∀ (st st' : RecordState) (h : Option (Except String Unit)) (e : String),
      Record.validateM st h = (st', some e) →
        st'.data = st.data ∧ st'.changes = st.changes) := by
  constructor
  · rintro st st' h e heq
    cases h with
    | none => simp [Record.saveM] at heq
    | some ex =>
        cases ex with
        | error e' =>
            simp only [Record.saveM] at heq
            injection heq with h1 h2
            rw [← h1]
            exact ⟨rfl, rfl⟩
        | ok r => simp [Record.saveM] at heq
  · rintro st st' h e heq
    cases h with
    | none => simp [Record.validateM] at heq
    | some ex =>
        cases ex with
        | error e' =>
            simp only [Record.validateM] at heq
            injection heq with h1 h2
            rw [← h1]
            exact ⟨rfl, rfl⟩
        | ok r => simp [Record.validateM] at heq

/-- C7 witness: a concrete rejected save leaves the concrete record's state
untouched. -/
theorem c7_error_atomicity_witness :
    ((⟨.vObj [("x", .vNum 1)], []⟩ : RecordState).data =
      (⟨.vObj [("x", .vNum 1)], []⟩ : RecordState).data ∧
     (⟨.vObj [("x", .vNum 1)], []⟩ : RecordState).changes =
      (⟨.vObj [("x", .vNum 1)], []⟩ : RecordState).changes) :=
  c7_error_atomicity.1 ⟨.vObj [("x", .vNum 1)], []⟩
    ⟨.vObj [("x", .vNum 1)], []⟩ (some (.error "boom")) "boom" rfl

/-- C8: the proxy `set` trap's null-unset branch is guarded by
`get(self, key)` — an instance-member lookup that is falsy for every data
path — so assigning `null` to an existing non-virtual data path falls
through to `set(key, null)`: the field is *not* removed; `null` is stored
(a subsequent read yields `null`, not "no value") and a `replace` entry —
not a `remove` — is logged.  This evaluates the code at the failing input
`record.middleName = null` on data `{middleName: "David"}`. -/
theorem c8_null_write_stores_null :
    Record.proxySet [] ⟨.vObj [("middleName", .vStr "David")], []⟩
        "middleName" .vNull =
      some ⟨.vObj [("middleName", .vNull)],
        [⟨.replace, "middleName", .vStr "David", .vNull⟩]⟩ ∧
    Record.proxyGet [] ⟨.vObj [("middleName", .vNull)], []⟩ "middleName" =
      .vNull ∧
    Val.vNull ≠ Val.vUndefined ∧
    RecOp.replace ≠ RecOp.remove := by
  refine ⟨by decide, by decide, by decide, by decide⟩

/-- C9 (amended): an array-`length` write is skipped (no data change, no log
entry) only when the array sits at a *single-segment* parent path: for
`key` splitting as `[f, "length"]` with the value at `f` an array, `set`
returns with the state untouched.  (For deeper keys such as `a.b.length`
the guard's comma-joined parent lookup misses — see the counterexample.) -/
theorem c9_array_length_guard (virtuals : List String) (st : RecordState)
    (f key : String) (v : Val)
    (hsplit : strSplitOnDot key = [f, "length"])
    (hend : strEndsWith key "length" = true)
    (hvirt : virtuals.contains key = false)
    (harr : (Record.getArrKey virtuals st [f]).instanceofArray = true) :
    Record.setM virtuals st key v = some st := by
  have hv' : key ∉ virtuals := by
    intro hmem
    have : virtuals.contains key = true := List.elem_eq_true_of_mem hmem
    rw [this] at hvirt
    exact Bool.noConfusion hvirt
  simp [Record.setM, hv', hsplit, hend, harr]

/-- C9 witness: a concrete write to `a.length` over data `{a: [1]}` is
ignored. -/
theorem c9_array_length_guard_witness :
    Record.setM [] ⟨.vObj [("a", .vArr [.vNum 1])], []⟩ "a.length"
        (.vNum 5) =
      some ⟨.vObj [("a", .vArr [.vNum 1])], []⟩ :=
  c9_array_length_guard [] ⟨.vObj [("a", .vArr [.vNum 1])], []⟩ "a"
    "a.length" (.vNum 5) (by decide) (by decide) (by decide) (by decide)

/-- C9 counterexample: with data `{a: {b: [1]}}` the parent of
`a.b.length` *is* an array and the path ends with `length`, yet
`set('a.b.length', 1)` appends a change entry (the guard's
`this.get(['a','b'])` lookup stringifies to the single flat key `"a,b"` and
misses), refuting the claim for nested parents. -/
theorem c9_length_counterexample :
    Record.setM [] ⟨.vObj [("a", .vObj [("b", .vArr [.vNum 1])])], []⟩
        "a.b.length" (.vNum 1) =
      some ⟨.vObj [("a", .vObj [("b", .vArr [.vNum 1])])],
        [⟨.replace, "a.b.length", .vNum 1, .vNum 1⟩]⟩ ∧
    ([⟨.replace, "a.b.length", .vNum 1, .vNum 1⟩] : List RecordChange) ≠
      [] := by
  refine ⟨by decide, by decide⟩

/-- C10: `revert(count)` is total exactly under the precondition
`count ≤ changes().length`: each iteration pops one entry and reads its
`operation` field, and popping an exhausted log reads a field of
`undefined` and fails. -/
theorem c10_revert_requires_entries (st : RecordState) (count : Nat) :
    (Record.revertM st count).isSome = true ↔
      count ≤ st.changes.length := by
  induction count generalizing st with
  | zero => simp [Record.revertM]
  | succ n ih =>
      obtain ⟨d, changes⟩ := st
      cases changes with
      | nil => simp [Record.revertM]
      | cons c rest =>
          simp only [Record.revertM]
          rw [ih]
          simp only [List.length_cons]
          omega

theorem renderPred_factor (k op : String) (v : Val) :
    AQL.renderPred k op v = "doc." ++ AQL.filterKey k ++ AQL.predTail op v := by
  unfold AQL.renderPred AQL.predTail
  by_cases hop : op = "$exists"
  · simp [hop, String.append_assoc]
  · simp [hop, String.append_assoc]

/-- C5: Field remap — (1) for every QueryModel whose where-tree contains a
filter predicate on the logical field `id`, at any position in any branch,
the generated string renders that predicate against `doc._key`; (2) neither
remap table ever produces the literal name `id`, so nothing renders against
`doc.id`; (3) `id` maps to `_key` and `rev` to `_rev` in both tables; (4)
every other field path passes through unchanged; (5) a sort entry, at any
position, renders against its remapped field (`doc._key` for `id`,
`doc._rev` for `rev`). -/
theorem c5_field_remap :
    (∀ (c : String) (q : QueryData)
       (bs1 bs2 : List (String × List (Option QPred))) (lop : String)
       (gs1 gs2 : List (Option QPred)) (op : String) (v : Val),
      q.whereB = bs1 ++ [(lop, gs1 ++ [some ⟨"id", op, v⟩] ++ gs2)] ++ bs2 →
      AQL.queryToAQL c q =
        "FOR doc IN " ++ c ++ AQL.renderWhere bs1 ++
          AQL.renderGroupsAux (AQL.logicWord lop) 0 gs1 ++
          (if gs1.length = 0 then " FILTER "
           else " " ++ AQL.logicWord lop ++ " ") ++
          ("doc." ++ "_key" ++ AQL.predTail op v) ++
          AQL.renderGroupsAux (AQL.logicWord lop) (gs1.length + 1) gs2 ++
          AQL.renderWhere bs2 ++ AQL.sortClause q ++ AQL.limitClause q ++
          AQL.returnClause q) ∧
    (∀ k, AQL.filterKey k ≠ "id" ∧ AQL.sortKey k ≠ "id") ∧
    (AQL.filterKey "id" = "_key" ∧ AQL.filterKey "rev" = "_rev" ∧
      AQL.sortKey "id" = "_key" ∧ AQL.sortKey "rev" = "_rev") ∧
    (∀ k, k ≠ "id" → k ≠ "rev" → AQL.filterKey k = k ∧ AQL.sortKey k = k) ∧
    (∀ (q : QueryData) (s1 s2 : List (String × Int)) (f : String) (d : Int),
      q.sort = some (s1 ++ [(f, d)] ++ s2) →
      AQL.sortClause q =
        AQL.renderSortsAux 0 s1 ++
          (if s1.length = 0 then " SORT " else ", ") ++
          ("doc." ++ AQL.sortKey f ++ (if d < 0 then " DESC" else "")) ++
          AQL.renderSortsAux (s1.length + 1) s2) := by
  refine ⟨?_, ?_, ?_, ?_, ?_⟩
  · intro c q bs1 bs2 lop gs1 gs2 op v hw
    unfold AQL.queryToAQL
    rw [hw, renderWhere_append, renderWhere_append]
    have hmid : AQL.renderWhere [(lop, gs1 ++ [some ⟨"id", op, v⟩] ++ gs2)] =
        AQL.renderGroupsAux (AQL.logicWord lop) 0 gs1 ++
          ((if gs1.length = 0 then " FILTER "
            else " " ++ AQL.logicWord lop ++ " ") ++
            ("doc." ++ "_key" ++ AQL.predTail op v) ++
            AQL.renderGroupsAux (AQL.logicWord lop) (gs1.length + 1) gs2) := by
      show AQL.renderGroupsAux (AQL.logicWord lop) 0
          (gs1 ++ [some ⟨"id", op, v⟩] ++ gs2) ++ AQL.renderWhere [] = _
      rw [renderGroupsAux_append, renderGroupsAux_append]
      simp only [AQL.renderGroupsAux, AQL.renderGroup, renderPred_factor,
        AQL.filterKey, AQL.renderWhere, List.length_append,
        List.length_singleton, Nat.zero_add]
      simp [String.append_assoc]
    rw [hmid]
    simp [String.append_assoc]
  · intro k
    constructor
    · by_cases h1 : k = "id"
      · simp [AQL.filterKey, h1]
      · by_cases h2 : k = "rev" <;> simp [AQL.filterKey, h1, h2]
    · by_cases h1 : k = "id"
      · simp [AQL.sortKey, h1]
      · by_cases h2 : k = "rev" <;> simp [AQL.sortKey, h1, h2]
  · exact ⟨rfl, rfl, rfl, rfl⟩
  · intro k h1 h2
    exact ⟨by simp [AQL.filterKey, h1, h2], by simp [AQL.sortKey, h1, h2]⟩
  · intro q s1 s2 f d hs
    unfold AQL.sortClause
    rw [hs]
    show AQL.renderSortsAux 0 (s1 ++ [(f, d)] ++ s2) = _
    rw [renderSortsAux_append, renderSortsAux_append]
    simp only [AQL.renderSortsAux, List.length_append, List.length_singleton,
      Nat.zero_add]
    simp [String.append_assoc]

/-- C5 witness: a concrete model with an `id` filter predicate and an `id`
sort entry, checked through the theorem. -/
theorem c5_field_remap_witness :
    AQL.queryToAQL "c"
        ⟨.vNum 0, .vNum 0, some [("id", -1)], none,
         [("$and", [some ⟨"id", "$eq", .vStr "x"⟩])]⟩ =
      "FOR doc IN " ++ "c" ++ AQL.renderWhere [] ++
        AQL.renderGroupsAux (AQL.logicWord "$and") 0 [] ++
        (if ([] : List (Option QPred)).length = 0 then " FILTER "
         else " " ++ AQL.logicWord "$and" ++ " ") ++
        ("doc." ++ "_key" ++ AQL.predTail "$eq" (.vStr "x")) ++
        AQL.renderGroupsAux (AQL.logicWord "$and")
          (([] : List (Option QPred)).length + 1) [] ++
        AQL.renderWhere [] ++
        AQL.sortClause
          ⟨.vNum 0, .vNum 0, some [("id", -1)], none,
           [("$and", [some ⟨"id", "$eq", .vStr "x"⟩])]⟩ ++
        AQL.limitClause
          ⟨.vNum 0, .vNum 0, some [("id", -1)], none,
           [("$and", [some ⟨"id", "$eq", .vStr "x"⟩])]⟩ ++
        AQL.returnClause
          ⟨.vNum 0, .vNum 0, some [("id", -1)], none,
           [("$and", [some ⟨"id", "$eq", .vStr "x"⟩])]⟩ :=
  c5_field_remap.1 "c"
    ⟨.vNum 0, .vNum 0, some [("id", -1)], none,
     [("$and", [some ⟨"id", "$eq", .vStr "x"⟩])]⟩
    [] [] "$and" [] [] "$eq" (.vStr "x") rfl

theorem setCopy_eq (v : Val) : Record.setCopy v = v := by
  cases v <;> rfl

theorem assignCopy_not_array (v : Val) (h : v.instanceofArray = false) :
    (if v.instanceofObject then Record.assignCopy v else v) = v := by
  cases v <;> simp_all [Record.assignCopy, Val.instanceofObject,
    Val.instanceofArray]

theorem lodashGet_single (d : Val) (k : String) :
    lodashGet d [k] = getKey d k := rfl

theorem lodashSet_single (d : Val) (k : String) (x : Val) :
    lodashSet d [k] x = setKey d k x := rfl

theorem lodashUnset_single (d : Val) (k : String) :
    lodashUnset d [k] = delKey d k := rfl

theorem contains_nil_eq (k : String) : ([] : List String).contains k = false :=
  rfl

theorem getKey_obj (fs : List (String × Val)) (k : String) :
    getKey (.vObj fs) k = objLookup fs k := rfl

theorem setKey_obj (fs : List (String × Val)) (k : String) (v : Val) :
    setKey (.vObj fs) k v = .vObj (objAssign fs k v) := rfl

theorem delKey_obj (fs : List (String × Val)) (k : String) :
    delKey (.vObj fs) k = .vObj (objDelete fs k) := rfl

theorem setM_simple (fs : List (String × Val)) (ch : List RecordChange)
    (k : String) (v : Val)
    (h1 : stringToPath k = [k]) (h2 : strSplitOnDot k = [k])
    (h3 : strEndsWith k "length" = false) :
    Record.setM [] ⟨.vObj fs, ch⟩ k v =
      some ⟨.vObj (objAssign fs k v),
        ⟨(if (objLookup fs k).truthy then .replace else .add), k,
          objLookup fs k, v⟩ :: ch⟩ := by
  simp only [Record.setM, Record.getM, Record.getArrKey, h1, h2, h3,
    setCopy_eq, lodashGet_single, lodashSet_single, contains_nil_eq,
    Bool.false_eq_true, and_false, if_false, ite_self, getKey_obj,
    setKey_obj]

theorem unsetM_simple (fs : List (String × Val)) (ch : List RecordChange)
    (k : String)
    (h1 : stringToPath k = [k])
    (h4 : objLookup fs k ≠ .vUndefined)
    (h5 : (objLookup fs k).instanceofArray = false) :
    Record.unsetM [] ⟨.vObj fs, ch⟩ k =
      (⟨.vObj (objDelete fs k),
        ⟨.remove, k, objLookup fs k, .vUndefined⟩ :: ch⟩, true) := by
  unfold Record.unsetM
  simp only [Record.getM, h1, contains_nil_eq, Bool.false_eq_true, if_false,
    lodashGet_single, lodashUnset_single, getKey_obj, delKey_obj,
    assignCopy_not_array _ h5, h4]

theorem revertM_add_comp (a : Nat) : ∀ (st : RecordState) (b : Nat),
    Record.revertM st (a + b) =
      (Record.revertM st a).bind (fun s => Record.revertM s b) := by
  induction a with
  | zero => intro st b; simp [Record.revertM]
  | succ n ih =>
      intro st b
      have hs : n + 1 + b = (n + b) + 1 := by omega
      rw [hs]
      obtain ⟨d, changes⟩ := st
      cases changes with
      | nil => simp [Record.revertM]
      | cons c rest =>
          simp only [Record.revertM]
          exact ih _ b

theorem c3_ind (ms : List Mut) :
    ∀ (fs : List (String × Val)) (ch : List RecordChange),
    okSeq (.vObj fs) ms = true →
    (fs.map Prod.fst).Nodup →
    ∃ (gs : List (String × Val)) (es : List RecordChange),
      applySeq ⟨.vObj fs, ch⟩ ms = some ⟨.vObj gs, es ++ ch⟩ ∧
      es.length = ms.length ∧
      (gs.map Prod.fst).Nodup ∧
      ∀ (hs : List (String × Val)), (hs.map Prod.fst).Nodup →
        objExtEq hs gs →
        ∃ rs, Record.revertM ⟨.vObj hs, es ++ ch⟩ es.length =
            some ⟨.vObj rs, ch⟩ ∧
          (rs.map Prod.fst).Nodup ∧ objExtEq rs fs := by
  induction ms with
  | nil =>
      intro fs ch _ hnd
      exact ⟨fs, [], rfl, rfl, hnd,
        fun hs hnds hext => ⟨hs, rfl, hnds, hext⟩⟩
  | cons m rest ih =>
      intro fs ch hok hnd
      simp only [okSeq, Bool.and_eq_true] at hok
      obtain ⟨hm, hrest⟩ := hok
      cases m with
      | mset k v =>
          simp only [okMut, Bool.and_eq_true, beq_iff_eq, Bool.or_eq_true,
            Bool.not_eq_true', getKey_obj] at hm
          obtain ⟨⟨⟨hp1, hp2⟩, hlen⟩, hval⟩ := hm
          have happ := setM_simple fs ch k v hp1 hp2 hlen
          have hrest' : okSeq (.vObj (objAssign fs k v)) rest = true := hrest
          have hnd1 := nodup_keys_objAssign fs k v hnd
          by_cases htr : (objLookup fs k).truthy = true
          · -- replace
            have happ' : Record.setM [] ⟨.vObj fs, ch⟩ k v =
                some ⟨.vObj (objAssign fs k v),
                  ⟨.replace, k, objLookup fs k, v⟩ :: ch⟩ := by
              simp [happ, htr]
            obtain ⟨gs, es, happseq, hlen2, hndgs, hrev⟩ :=
              ih (objAssign fs k v)
                (⟨.replace, k, objLookup fs k, v⟩ :: ch) hrest' hnd1
            refine ⟨gs, es ++ [⟨.replace, k, objLookup fs k, v⟩], ?_, ?_,
              hndgs, ?_⟩
            · simp only [applySeq, applyMut, happ', happseq]
              simp
            · simp [hlen2]
            · intro hs hnds hext
              obtain ⟨rs1, hrev1, hnds1, hext1⟩ := hrev hs hnds hext
              refine ⟨objAssign rs1 k (objLookup fs k), ?_,
                nodup_keys_objAssign _ _ _ hnds1, ?_⟩
              · rw [show (es ++ [(⟨.replace, k, objLookup fs k, v⟩ :
                    RecordChange)]).length = es.length + 1 by simp]
                rw [show (es ++ [(⟨.replace, k, objLookup fs k, v⟩ :
                    RecordChange)]) ++ ch =
                    es ++ (⟨.replace, k, objLookup fs k, v⟩ :: ch) by simp]
                rw [revertM_add_comp es.length, hrev1]
                show Record.revertM
                  ⟨.vObj rs1, ⟨.replace, k, objLookup fs k, v⟩ :: ch⟩ 1 = _
                simp only [Record.revertM, hp1, lodashSet_single, setKey_obj]
              · intro k'
                by_cases hk : k' = k
                · subst hk
                  rw [objLookup_assign_self]
                · rw [objLookup_assign_other _ _ _ _ hk, hext1 k',
                    objLookup_assign_other _ _ _ _ hk]
          · -- add (the prior value is absent: present-falsy is excluded)
            have habs : objLookup fs k = .vUndefined := by
              rcases hval with h | h
              · exact h
              · exact absurd h htr
            have happ' : Record.setM [] ⟨.vObj fs, ch⟩ k v =
                some ⟨.vObj (objAssign fs k v),
                  ⟨.add, k, objLookup fs k, v⟩ :: ch⟩ := by
              simp [happ, htr]
            obtain ⟨gs, es, happseq, hlen2, hndgs, hrev⟩ :=
              ih (objAssign fs k v)
                (⟨.add, k, objLookup fs k, v⟩ :: ch) hrest' hnd1
            refine ⟨gs, es ++ [⟨.add, k, objLookup fs k, v⟩], ?_, ?_,
              hndgs, ?_⟩
            · simp only [applySeq, applyMut, happ', happseq]
              simp
            · simp [hlen2]
            · intro hs hnds hext
              obtain ⟨rs1, hrev1, hnds1, hext1⟩ := hrev hs hnds hext
              refine ⟨objDelete rs1 k, ?_,
                nodup_keys_objDelete _ _ hnds1, ?_⟩
              · rw [show (es ++ [(⟨.add, k, objLookup fs k, v⟩ :
                    RecordChange)]).length = es.length + 1 by simp]
                rw [show (es ++ [(⟨.add, k, objLookup fs k, v⟩ :
                    RecordChange)]) ++ ch =
                    es ++ (⟨.add, k, objLookup fs k, v⟩ :: ch) by simp]
                rw [revertM_add_comp es.length, hrev1]
                show Record.revertM
                  ⟨.vObj rs1, ⟨.add, k, objLookup fs k, v⟩ :: ch⟩ 1 = _
                simp only [Record.revertM, hp1, lodashUnset_single,
                  delKey_obj]
              · intro k'
                by_cases hk : k' = k
                · subst hk
                  rw [objLookup_delete_self _ _ hnds1, habs]
                · rw [objLookup_delete_other _ _ _ hk, hext1 k',
                    objLookup_assign_other _ _ _ _ hk]
      | munset k =>
          simp only [okMut, Bool.and_eq_true, beq_iff_eq, bne_iff_ne,
            Bool.not_eq_true', getKey_obj] at hm
          obtain ⟨⟨⟨hp1, hp2⟩, hpres⟩, harr⟩ := hm
          have happ := unsetM_simple fs ch k hp1 hpres harr
          have hrest' : okSeq (.vObj (objDelete fs k)) rest = true := hrest
          have hnd1 := nodup_keys_objDelete fs k hnd
          obtain ⟨gs, es, happseq, hlen2, hndgs, hrev⟩ :=
            ih (objDelete fs k)
              (⟨.remove, k, objLookup fs k, .vUndefined⟩ :: ch) hrest' hnd1
          refine ⟨gs, es ++ [⟨.remove, k, objLookup fs k, .vUndefined⟩], ?_, ?_,
            hndgs, ?_⟩
          · simp only [applySeq, applyMut, happ, happseq]
            simp
          · simp [hlen2]
          · intro hs hnds hext
            obtain ⟨rs1, hrev1, hnds1, hext1⟩ := hrev hs hnds hext
            refine ⟨objAssign rs1 k (objLookup fs k), ?_,
              nodup_keys_objAssign _ _ _ hnds1, ?_⟩
            · rw [show (es ++ [(⟨.remove, k, objLookup fs k, .vUndefined⟩ :
                  RecordChange)]).length = es.length + 1 by simp]
              rw [show (es ++ [(⟨.remove, k, objLookup fs k, .vUndefined⟩ :
                  RecordChange)]) ++ ch =
                  es ++ (⟨.remove, k, objLookup fs k, .vUndefined⟩ :: ch) by simp]
              rw [revertM_add_comp es.length, hrev1]
              show Record.revertM
                ⟨.vObj rs1, ⟨.remove, k, objLookup fs k, .vUndefined⟩ :: ch⟩ 1 = _
              simp only [Record.revertM, hp1, lodashSet_single, setKey_obj]
            · intro k'
              by_cases hk : k' = k
              · subst hk
                rw [objLookup_assign_self]
              · rw [objLookup_assign_other _ _ _ _ hk, hext1 k',
                  objLookup_delete_other _ _ _ hk]

/-- C3 (amended): revert exactness holds on the fragment where `set`'s
truthiness-based add/replace classification and the copy/path handling are
exact — single-segment plain keys (the JS object's keys are unique), every
`set` targeting a key whose current value is absent or truthy, and every
`unset` targeting a present non-array value.  There, after N such mutations
on a fresh record with data S0, `revert(N)` pops all N entries, leaves
`changes()` empty and restores data that agrees with S0 at every key
(JS deep-equal; key insertion order aside).  Outside the fragment the
property fails — see the counterexample (a `set` over a present falsy value
logs `add`, so revert deletes the key instead of restoring the value; a
nested `add` leaves behind the intermediate containers lodash `set`
created; an `unset` of an array value records its `old` as an index-keyed
plain object). -/
theorem c3_revert_amended (fs : List (String × Val)) (ms : List Mut)
    (hnd : (fs.map Prod.fst).Nodup)
    (hok : okSeq (.vObj fs) ms = true) :
    ∃ st1 st2, applySeq ⟨.vObj fs, []⟩ ms = some st1 ∧
      st1.changes.length = ms.length ∧
      Record.revertM st1 ms.length = some st2 ∧
      st2.changes = [] ∧
      Record.changesM st2 none = [] ∧
      ∃ rs, st2.data = .vObj rs ∧
        ∀ k, objLookup rs k = objLookup fs k := by
  obtain ⟨gs, es, happ, hlen, hndgs, hrev⟩ := c3_ind ms fs [] hok hnd
  obtain ⟨rs, hrevm, hndrs, hext⟩ := hrev gs hndgs (fun k => rfl)
  refine ⟨⟨.vObj gs, es ++ []⟩, ⟨.vObj rs, []⟩, happ, ?_, ?_, rfl, ?_,
    rs, rfl, hext⟩
  · simp [hlen]
  · rw [show ms.length = es.length from hlen.symm]
    exact hrevm
  · rfl

/-- C3 witness: three admissible mutations on `{a: 5}` — overwrite `a`, add
`b`, remove `a` — then `revert(3)`. -/
theorem c3_revert_amended_witness :
    ∃ st1 st2,
      applySeq ⟨.vObj [("a", .vNum 5)], []⟩
          [Mut.mset "a" (.vNum 7), Mut.mset "b" (.vStr "x"),
           Mut.munset "a"] = some st1 ∧
      st1.changes.length =
        [Mut.mset "a" (.vNum 7), Mut.mset "b" (.vStr "x"),
         Mut.munset "a"].length ∧
      Record.revertM st1
          [Mut.mset "a" (.vNum 7), Mut.mset "b" (.vStr "x"),
           Mut.munset "a"].length = some st2 ∧
      st2.changes = [] ∧
      Record.changesM st2 none = [] ∧
      ∃ rs, st2.data = .vObj rs ∧
        ∀ k, objLookup rs k = objLookup [("a", .vNum 5)] k :=
  c3_revert_amended [("a", .vNum 5)]
    [Mut.mset "a" (.vNum 7), Mut.mset "b" (.vStr "x"), Mut.munset "a"]
    (by decide) (by decide)

/-- C3 counterexample: on fresh data `{a: 0}`, the single mutation
`set('a', 1)` is classified `add` (the present value 0 is falsy under the
`!!` check), so `revert(1)` deletes the key: the change log ends empty as
claimed, but the data is `{}`, not `{a: 0}`. -/
theorem c3_revert_counterexample :
    Record.setM [] ⟨.vObj [("a", .vNum 0)], []⟩ "a" (.vNum 1) =
      some ⟨.vObj [("a", .vNum 1)], [⟨.add, "a", .vNum 0, .vNum 1⟩]⟩ ∧
    Record.revertM
        ⟨.vObj [("a", .vNum 1)], [⟨.add, "a", .vNum 0, .vNum 1⟩]⟩ 1 =
      some ⟨.vObj [], []⟩ ∧
    Record.changesM ⟨.vObj [], []⟩ none = [] ∧
    objLookup ([] : List (String × Val)) "a" ≠
      objLookup [("a", .vNum 0)] "a" := by
  refine ⟨by decide, by decide, by decide, by decide⟩
